import Mathlib

set_option maxRecDepth 4000

/-!
Verification of the ReasonMed RAG core (src/src/retriever.py,
src/src/rag_pipeline.py, src/src/generator.py, src/src/embeddings.py,
src/src/vectorstore.py) against its specification.

External collaborators (the OpenAI client, the ChromaDB collection) are
modelled as explicit function parameters returning `Except` values; machine
floats of the source are modelled as rationals; Python dicts of string keys
and values as association lists.
-/

namespace ReasonMed

/-- Error taxonomy: caller-input validation failures (Python `ValueError`
raised by the code itself on malformed caller input) and collaborator
failures (errors propagated from the embedding, completion, or vector-index
provider). -/
inductive RMError where
  | validation (msg : String)
  | provider (msg : String)
deriving Repr, DecidableEq

/-- A metadata mapping (Python dict with string keys and values), modelled as
an association list. -/
abbrev Metadata := List (String × String)

/-- Python `metadata.get(key, default)`. -/
def mget (metadata : Metadata) (key dflt : String) : String :=
  match metadata.lookup key with
  | some v => v
  | none => dflt

/-- `src/retriever.py` lines 48-53: the per-result record built by
`Retriever.retrieve`. -/
structure RetrievedDocument where
  id : String
  text : String
  metadata : Metadata
  similarity_score : ℚ
deriving Repr, DecidableEq

/-- `src/vectorstore.py` lines 104-109: the value returned by
`VectorStore.query` — four parallel sequences (first query row of the
underlying index reply). -/
structure SearchResult where
  ids : List String
  documents : List String
  metadatas : List Metadata
  distances : List ℚ
deriving Repr, DecidableEq

/-- `src/retriever.py` lines 46-56: the zip loop of `Retriever.retrieve` —
`for i in range(len(results["ids"]))`, build one document from the i-th entry
of each parallel sequence with `similarity_score = 1 - distances[i]` (no
clamping). Out-of-range indexing (impossible for parallel sequences of equal
length) is totalized with defaults. -/
def retrieveFromResults (results : SearchResult) : List RetrievedDocument :=
  (List.range results.ids.length).map fun i =>
    { id := results.ids.getD i ""
      text := results.documents.getD i ""
      metadata := results.metadatas.getD i []
      similarity_score := 1 - results.distances.getD i 0 }

/-- An equality filter on metadata, as passed to the vector store query. -/
abbrev Filter := Metadata

/-- `src/retriever.py` lines 25-56: `Retriever.retrieve`, parameterized over
the `EmbeddingGenerator.generate_embedding` and `VectorStore.query`
collaborators. `top_k` is forwarded unchanged as `n_results` to the vector
store query; the function performs no validation of its own. -/
def Retriever.retrieve
    (generate_embedding : String → Except RMError (List ℚ))
    (vsquery : List ℚ → Int → Option Filter → Except RMError SearchResult)
    (query : String) (top_k : Int) (filter_dict : Option Filter) :
    Except RMError (List RetrievedDocument) := do
  let query_embedding ← generate_embedding query
  let results ← vsquery query_embedding top_k filter_dict
  pure (retrieveFromResults results)

/-- Left-pad a digit string with zeros to width `n`. -/
def padZeros (s : String) (n : Nat) : String :=
  String.mk (List.replicate (n - s.length) '0') ++ s

/-- Python slicing `s[:n]`: the first `n` characters of `s` (all of `s` when
it is shorter). -/
def strTake (s : String) (n : Nat) : String :=
  String.mk (s.data.take n)

/-- Python `"%.3f"`-style fixed-point formatting of a rational score: round
the magnitude (numerator `|q.num| * 1000` over denominator `q.den`) to an
integer count of thousandths, ties to even, then print sign, integer part
and a 3-digit fraction. -/
def formatScore3 (q : ℚ) : String :=
  let sgn := if q.num < 0 then "-" else ""
  let nnum : Nat := q.num.natAbs * 1000
  let den : Nat := q.den
  let lo : Nat := nnum / den
  let r : Nat := nnum % den
  let m : Nat :=
    if 2 * r < den then lo
    else if den < 2 * r then lo + 1
    else if lo % 2 = 0 then lo else lo + 1
  sgn ++ toString (m / 1000) ++ "." ++ padZeros (toString (m % 1000)) 3

/-- `src/retriever.py` lines 70-76: the five parts appended per document at
1-based position `rank` by `Retriever.format_context`: the header with rank
and similarity formatted to 3 decimals, the Question line, the Reasoning line
(first 300 characters, ellipsis appended unconditionally), the Diagnosis
line, and the empty separator part. -/
def formatBlock (rank : Nat) (doc : RetrievedDocument) : List String :=
  ["Similar Case " ++ toString rank ++ " (Similarity: " ++
     formatScore3 doc.similarity_score ++ "):",
   "Question: " ++ mget doc.metadata "full_question" "N/A",
   "Reasoning: " ++ strTake (mget doc.metadata "full_reasoning" "N/A") 300 ++ "...",
   "Diagnosis: " ++ mget doc.metadata "full_response" "N/A",
   ""]

/-- The `enumerate(retrieved_docs, 1)` loop of `format_context`, carrying the
1-based counter. -/
def contextParts (rank : Nat) : List RetrievedDocument → List String
  | [] => []
  | doc :: rest => formatBlock rank doc ++ contextParts (rank + 1) rest

/-- `src/retriever.py` lines 58-78: `Retriever.format_context` —
`"\n".join(context_parts)`. -/
def format_context (retrieved_docs : List RetrievedDocument) : String :=
  String.intercalate "\n" (contextParts 1 retrieved_docs)

/-- `src/rag_pipeline.py` lines 46-51: the result record assembled by
`RAGPipeline.run`. -/
structure RAGResult where
  query : String
  retrieved_documents : List RetrievedDocument
  context : String
  response : String
deriving Repr, DecidableEq

/-- `src/rag_pipeline.py` lines 29-51: `RAGPipeline.run`, parameterized over
the `Retriever.retrieve` and `ResponseGenerator.generate` collaborators. -/
def RAGPipeline.run
    (retrieveF : String → Int → Option Filter → Except RMError (List RetrievedDocument))
    (generateF : String → String → Except RMError String)
    (top_k : Int) (query : String) (filter_dict : Option Filter) :
    Except RMError RAGResult := do
  let retrieved_docs ← retrieveF query top_k filter_dict
  let context := format_context retrieved_docs
  let response ← generateF query context
  pure { query := query, retrieved_documents := retrieved_docs,
         context := context, response := response }

/-- `src/rag_pipeline.py` lines 67-84: the tagged events yielded by
`RAGPipeline.run_streaming`. -/
inductive StreamEvent where
  | retrieved (num_documents : Nat) (documents : List RetrievedDocument)
  | chunk (data : String)
  | complete
deriving Repr, DecidableEq

/-- `src/rag_pipeline.py` lines 53-84: `RAGPipeline.run_streaming`. The
streaming generator collaborator is modelled by the fragments it yields for a
query/context pair together with an optional error raised at the next pull;
the result is the event sequence the Python generator yields before returning
or re-raising, paired with the propagated error if any. Retrieval and context
formatting happen before the first event is produced. -/
def RAGPipeline.run_streaming
    (retrieveF : String → Int → Option Filter → Except RMError (List RetrievedDocument))
    (generate_streaming : String → String → List String × Option RMError)
    (top_k : Int) (query : String) (filter_dict : Option Filter) :
    List StreamEvent × Option RMError :=
  match retrieveF query top_k filter_dict with
  | .error e => ([], some e)
  | .ok retrieved_docs =>
    let context := format_context retrieved_docs
    let (chunks, err) := generate_streaming query context
    let evs := StreamEvent.retrieved retrieved_docs.length retrieved_docs ::
      chunks.map StreamEvent.chunk
    match err with
    | some e => (evs, some e)
    | none => (evs ++ [StreamEvent.complete], none)

/-- `src/generator.py` lines 137-139: the re-emission loop of
`ResponseGenerator.generate_streaming`: upstream fragments whose
`delta.content` is None are skipped; every other content value (including the
empty string) is yielded as-is, in arrival order. -/
def reemitFragments : List (Option String) → List String
  | [] => []
  | none :: rest => reemitFragments rest
  | some c :: rest => c :: reemitFragments rest

/-- Consecutive chunks of at most `bs` elements, in input order (the slices
`l[i:i+bs]` for `i in range(0, len(l), bs)` when `bs > 0`; `[]` when `bs = 0`,
a case Python rejects with `ValueError` before slicing). -/
def chunksOf (bs : Nat) : List α → List (List α)
  | [] => []
  | x :: xs =>
    if hbs : bs = 0 then []
    else (x :: xs).take bs :: chunksOf bs ((x :: xs).drop bs)
termination_by l => l.length
decreasing_by
  simp only [List.length_drop, List.length_cons]
  omega

/-- Observable upstream interactions of `generate_embeddings_batch`: one
`call n` per embeddings request over `n` inputs, one `sleep` per
`time.sleep(delay)`. -/
inductive BatchEvent where
  | call (n : Nat)
  | sleep
deriving Repr, DecidableEq

/-- `src/embeddings.py` lines 71-90: the `for i in range(0, total, batch_size)`
loop of `EmbeddingGenerator.generate_embeddings_batch`, acting on the
remaining suffix of `texts`. Each iteration embeds `texts[i:i+batch_size]`,
extends the accumulated list on success, re-raises on failure, and sleeps
only when `i + batch_size < total`. -/
def embLoop (embed : List String → Except RMError (List (List ℚ)))
    (bs : Nat) : List String → List BatchEvent × Except RMError (List (List ℚ))
  | [] => ([], .ok [])
  | t :: ts =>
    if hbs : bs = 0 then ([], .error (.validation "range() arg 3 must not be zero"))
    else
      let batch := (t :: ts).take bs
      match embed batch with
      | .error e => ([.call batch.length], .error e)
      | .ok es =>
        match hdrop : (t :: ts).drop bs with
        | [] => ([.call batch.length], .ok es)
        | r :: rs =>
          let rest := embLoop embed bs (r :: rs)
          (.call batch.length :: .sleep :: rest.1,
           match rest.2 with
           | .ok more => .ok (es ++ more)
           | .error e => .error e)
termination_by l => l.length
decreasing_by
  rw [← hdrop]
  simp only [List.length_drop, List.length_cons]
  omega

/-- `src/embeddings.py` lines 53-93: `EmbeddingGenerator.generate_embeddings_batch`
(over the embeddings-create collaborator), returning the observable upstream
event trace and the outcome: the concatenated per-chunk embeddings on
success, the first upstream error otherwise. A zero `batch_size` fails like
Python's `range(0, total, 0)` does. -/
def generate_embeddings_batch
    (embed : List String → Except RMError (List (List ℚ)))
    (texts : List String) (batch_size : Nat) :
    List BatchEvent × Except RMError (List (List ℚ)) :=
  if batch_size = 0 then ([], .error (.validation "range() arg 3 must not be zero"))
  else embLoop embed batch_size texts

/-- One stored vector-index entry: id, document text, metadata, embedding. -/
structure StoreRecord where
  id : String
  text : String
  metadata : Metadata
  embedding : List ℚ
deriving Repr, DecidableEq

/-- The parallel traversal of `add_documents`: the i-th record is built from
the i-th text, embedding, metadata and id (all four sequences have equal
length whenever this is reached, the length check having passed). -/
def zipRecords : List String → List (List ℚ) → List Metadata → List String → List StoreRecord
  | t :: ts, e :: es, m :: ms, i :: is =>
    { id := i, text := t, metadata := m, embedding := e } :: zipRecords ts es ms is
  | _, _, _, _ => []

/-- `src/vectorstore.py` lines 64-76: the batch slicing of `add_documents` —
the `for i in range(0, len(texts), batch_size)` loop with `batch_size = 100`
slices all four sequences identically; each slice quadruple is one
`collection.add` call. -/
def addBatches : List String → List (List ℚ) → List Metadata → List String → List (List StoreRecord)
  | [], _, _, _ => []
  | t :: ts, es, ms, is =>
    zipRecords ((t :: ts).take 100) (es.take 100) (ms.take 100) (is.take 100) ::
      addBatches ((t :: ts).drop 100) (es.drop 100) (ms.drop 100) (is.drop 100)
termination_by l _ _ _ => l.length
decreasing_by
  simp only [List.length_drop, List.length_cons]
  omega

/-- The write loop of `add_documents` over the batches: issues one
`collection.add` call per batch; a failing call stops the loop, leaving the
previously written batches committed (no rollback). Returns the committed
batches in order and the outcome. -/
def runBatches (addCall : List StoreRecord → Except RMError Unit) :
    List (List StoreRecord) → List (List StoreRecord) × Except RMError Unit
  | [] => ([], .ok ())
  | b :: rest =>
    match addCall b with
    | .error e => ([], .error e)
    | .ok _ =>
      let r := runBatches addCall rest
      (b :: r.1, r.2)

/-- `src/vectorstore.py` lines 48-81: `VectorStore.add_documents` over the
`collection.add` collaborator: the length check
`all(len(l) == len(texts) for l in [embeddings, metadatas, ids])` raises
`ValueError` before any write; otherwise writes proceed in consecutive
batches of size 100. Returns the committed batches and the outcome. -/
def add_documents (addCall : List StoreRecord → Except RMError Unit)
    (texts : List String) (embeddings : List (List ℚ))
    (metadatas : List Metadata) (ids : List String) :
    List (List StoreRecord) × Except RMError Unit :=
  if embeddings.length = texts.length ∧ metadatas.length = texts.length ∧
      ids.length = texts.length then
    runBatches addCall (addBatches texts embeddings metadatas ids)
  else
    ([], .error (.validation "All input lists must have the same length"))

/-- The state of the ChromaDB client as the RAG core observes it: the mapping
from collection name to stored records. `get_collection` raises on a missing
name; `create_collection` registers an empty collection. -/
structure ChromaClient where
  collections : List (String × List StoreRecord)
deriving Repr, DecidableEq

/-- The client's `get_collection(name)`: the stored records, or none (an
exception in Python) when no collection of that name exists. -/
def ChromaClient.getCollection (c : ChromaClient) (name : String) :
    Option (List StoreRecord) :=
  c.collections.lookup name

/-- The client's `create_collection(name)`: registers a fresh empty
collection under `name`. -/
def ChromaClient.createCollection (c : ChromaClient) (name : String) : ChromaClient :=
  ⟨(name, []) :: c.collections⟩

/-- The client's `delete_collection(name)`: removes every collection of that
name. -/
def ChromaClient.deleteCollection (c : ChromaClient) (name : String) : ChromaClient :=
  ⟨c.collections.filter (fun p => p.1 ≠ name)⟩

/-- `src/vectorstore.py` lines 36-46: `VectorStore._get_or_create_collection`:
try `get_collection`, on failure `create_collection`. Returns the updated
client and the live collection handle (its records). -/
def getOrCreateCollection (c : ChromaClient) (name : String) :
    ChromaClient × List StoreRecord :=
  match c.getCollection name with
  | some recs => (c, recs)
  | none => (c.createCollection name, [])

/-- `src/vectorstore.py` lines 120-124: `VectorStore.delete_collection`:
`client.delete_collection(name)` followed immediately by
`_get_or_create_collection()`. Returns the updated client and the store's new
collection handle. -/
def delete_collection (c : ChromaClient) (name : String) :
    ChromaClient × List StoreRecord :=
  getOrCreateCollection (c.deleteCollection name) name

/-- `src/vectorstore.py` lines 111-118: `VectorStore.get_collection_count` on
a collection handle. -/
def get_collection_count (collection : List StoreRecord) : Nat :=
  collection.length

/-! ## Theorems -/

/-- C9: `format_context` applied to the empty sequence of retrieved documents
returns the empty string (no header, no placeholder text), so a pipeline run
whose retrieval returns no documents proceeds to generation with an empty
context rather than failing. -/
theorem C9_format_context_empty :
    format_context [] = "" ∧
    ∀ (generateF : String → String → Except RMError String)
      (top_k : Int) (query : String) (fd : Option Filter) (resp : String),
      generateF query "" = .ok resp →
      RAGPipeline.run (fun _ _ _ => .ok []) generateF top_k query fd =
        .ok { query := query, retrieved_documents := [], context := "",
              response := resp } := by
  refine ⟨rfl, ?_⟩
  intro generateF top_k query fd resp h
  simp [RAGPipeline.run, format_context, contextParts, h, Except.bind,
    Bind.bind, Functor.map, Except.map,
    show String.intercalate "\n" ([] : List String) = "" from rfl, pure,
    Except.pure]

/-- Witness for C9 at a concrete generator. -/
theorem C9_witness :
    RAGPipeline.run (fun _ _ _ => .ok []) (fun _ _ => .ok "resp") 5 "q" none =
      .ok { query := "q", retrieved_documents := [], context := "",
            response := "resp" } :=
  C9_format_context_empty.2 (fun _ _ => .ok "resp") 5 "q" none "resp" rfl

/-- C1: for parallel result sequences of equal length, the zip loop of
`Retriever.retrieve` produces one document per position — same length as the
index result, the i-th document's id, text and metadata taken from the i-th
position of the corresponding sequence, similarity_score exactly
`1 - distances[i]` with no clamping, and the index's nearest-first order
preserved unchanged (position i of the output corresponds to position i of
the input). -/
theorem C1_retrieve_zip (r : SearchResult)
    (hd : r.documents.length = r.ids.length)
    (hm : r.metadatas.length = r.ids.length)
    (hs : r.distances.length = r.ids.length) :
    (retrieveFromResults r).length = r.ids.length ∧
    ∀ i, i < r.ids.length →
      ∃ a t m d, r.ids[i]? = some a ∧ r.documents[i]? = some t ∧
        r.metadatas[i]? = some m ∧ r.distances[i]? = some d ∧
        (retrieveFromResults r)[i]? =
          some { id := a, text := t, metadata := m,
                 similarity_score := 1 - d } := by
  constructor
  · simp [retrieveFromResults]
  · intro i hi
    have hd' : i < r.documents.length := by omega
    have hm' : i < r.metadatas.length := by omega
    have hs' : i < r.distances.length := by omega
    refine ⟨r.ids[i], r.documents[i], r.metadatas[i], r.distances[i],
      List.getElem?_eq_getElem hi, List.getElem?_eq_getElem hd',
      List.getElem?_eq_getElem hm', List.getElem?_eq_getElem hs', ?_⟩
    simp [retrieveFromResults, List.getElem?_map, hi,
      List.getD_eq_getElem?_getD, List.getElem?_eq_getElem,
      hd', hm', hs']

/-- Witness for C1: a result with distance 3/2 passes through as score
`1 - 3/2` (outside [0,1], no clamping). -/
theorem C1_witness :
    (retrieveFromResults ⟨["a"], ["t"], [[]], [(3/2 : ℚ)]⟩).length = 1 ∧
    (retrieveFromResults ⟨["a"], ["t"], [[]], [(3/2 : ℚ)]⟩)[0]? =
      some { id := "a", text := "t", metadata := [],
             similarity_score := 1 - (3/2 : ℚ) } := by
  have h := C1_retrieve_zip ⟨["a"], ["t"], [[]], [(3/2 : ℚ)]⟩ rfl rfl rfl
  refine ⟨h.1, ?_⟩
  obtain ⟨a, t, m, d, h1, h2, h3, h4, h5⟩ := h.2 0 (by decide)
  simp only [List.getElem?_cons_zero, Option.some.injEq] at h1 h2 h3 h4
  subst h1; subst h2; subst h3; subst h4
  exact h5

/-- Each enumerate step of `format_context` appends exactly five parts. -/
theorem contextParts_length (rank : Nat) (docs : List RetrievedDocument) :
    (contextParts rank docs).length = 5 * docs.length := by
  induction docs generalizing rank with
  | nil => simp [contextParts]
  | cons d rest ih =>
    simp only [contextParts, List.length_append, List.length_cons, ih,
      formatBlock, List.length_nil]
    ring

/-- The block of the document at 0-based position `j` starts at part index
`5 * j` and consists of the five parts of `formatBlock` at 1-based rank
`rank + j`. -/
theorem contextParts_block (rank : Nat) (docs : List RetrievedDocument) :
    ∀ j (hj : j < docs.length),
      ((contextParts rank docs).drop (5 * j)).take 5 =
        formatBlock (rank + j) docs[j] := by
  induction docs generalizing rank with
  | nil => intro j hj; simp at hj
  | cons d rest ih =>
    intro j hj
    cases j with
    | zero =>
      simp [contextParts, formatBlock]
    | succ j' =>
      have hj' : j' < rest.length := by
        simpa using Nat.lt_of_succ_lt_succ hj
      have hstep : (contextParts rank (d :: rest)).drop (5 * (j' + 1)) =
          (contextParts (rank + 1) rest).drop (5 * j') := by
        have h5 : 5 * (j' + 1) = (formatBlock rank d).length + 5 * j' := by
          simp [formatBlock]; ring
        rw [contextParts, h5, List.drop_append]
      rw [hstep, ih (rank + 1) j' hj']
      have harg : rank + (j' + 1) = rank + 1 + j' := by ring
      rw [harg, List.getElem_cons_succ]

/-- C2: for every non-empty docs sequence, `format_context` joins, with
newlines and in input order, one five-part block per document: a header with
the 1-based rank and the similarity score formatted to 3 decimal places, a
Question line (metadata full_question or N/A), a Reasoning line (first 300
characters of full_reasoning, N/A when absent, with a literal ellipsis
appended unconditionally), a Diagnosis line (full_response or N/A), and a
blank separator; the output carries exactly `docs.length` header blocks. -/
theorem C2_format_context_structure (docs : List RetrievedDocument)
    (hne : docs ≠ []) :
    format_context docs = String.intercalate "\n" (contextParts 1 docs) ∧
    (contextParts 1 docs).length = 5 * docs.length ∧
    ∀ j (hj : j < docs.length),
      ((contextParts 1 docs).drop (5 * j)).take 5 =
        ["Similar Case " ++ toString (j + 1) ++ " (Similarity: " ++
           formatScore3 docs[j].similarity_score ++ "):",
         "Question: " ++ mget docs[j].metadata "full_question" "N/A",
         "Reasoning: " ++
           strTake (mget docs[j].metadata "full_reasoning" "N/A") 300 ++ "...",
         "Diagnosis: " ++ mget docs[j].metadata "full_response" "N/A",
         ""] := by
  refine ⟨rfl, contextParts_length 1 docs, ?_⟩
  intro j hj
  rw [contextParts_block 1 docs j hj, Nat.add_comm 1 j]
  rfl

/-- Witness for C2 at one concrete document: rank 1, score 1.000, and the
ellipsis appended even though the reasoning is shorter than 300 characters. -/
theorem C2_witness :
    (contextParts 1 [{ id := "case_0", text := "t",
                       metadata := [("full_question", "65F with cough"),
                         ("full_reasoning", "R"), ("full_response", "Dx: TB")],
                       similarity_score := (1 : ℚ) }]).length = 5 * 1 ∧
    ((contextParts 1 [{ id := "case_0", text := "t",
                        metadata := [("full_question", "65F with cough"),
                          ("full_reasoning", "R"), ("full_response", "Dx: TB")],
                        similarity_score := (1 : ℚ) }]).drop (5 * 0)).take 5 =
      ["Similar Case 1 (Similarity: 1.000):",
       "Question: 65F with cough",
       "Reasoning: R...",
       "Diagnosis: Dx: TB",
       ""] := by
  have h := C2_format_context_structure
    [{ id := "case_0", text := "t",
       metadata := [("full_question", "65F with cough"),
         ("full_reasoning", "R"), ("full_response", "Dx: TB")],
       similarity_score := (1 : ℚ) }] (by simp)
  exact ⟨h.2.1, (h.2.2 0 (by decide)).trans (by decide)⟩

/-- C5 counterexample: an upstream fragment whose content is the empty string
(not None) is re-emitted as-is; the yielded sequence is `[""]`, which is not
the upstream sequence restricted to its non-empty fragments (that restriction
is empty), and the yielded fragment is not a non-empty string. -/
theorem C5_counterexample :
    reemitFragments [some ""] = [""] ∧
    ¬ (reemitFragments [some ""] =
         (List.filterMap id [some ""]).filter (fun s => !(s == "")) ∧
       ∀ s ∈ reemitFragments [some ""], s ≠ "") := by
  decide

/-- C5 amended: `generate_streaming` re-emits, in arrival order and with
fragment boundaries preserved, exactly those upstream fragments whose content
is not None — empty strings included: the yielded sequence equals the
upstream sequence restricted to its non-None content values. -/
theorem C5_reemit_not_none (upstream : List (Option String)) :
    reemitFragments upstream = upstream.filterMap id := by
  induction upstream with
  | nil => rfl
  | cons o rest ih => cases o <;> simp [reemitFragments, ih]

/-- C3: a successful `run_streaming` produces exactly one `retrieved` event
first — carrying the document count and the full retrieved sequence, computed
before any generation — followed by the generator's `chunk` events in order,
followed by exactly one terminal `complete` event; a failed run yields a
truncated sequence ending in an error that contains no `complete` event. -/
theorem C3_run_streaming_events
    (retrieveF : String → Int → Option Filter → Except RMError (List RetrievedDocument))
    (gstream : String → String → List String × Option RMError)
    (top_k : Int) (query : String) (fd : Option Filter) :
    (∀ docs chunks,
      retrieveF query top_k fd = .ok docs →
      gstream query (format_context docs) = (chunks, none) →
      RAGPipeline.run_streaming retrieveF gstream top_k query fd =
        (StreamEvent.retrieved docs.length docs ::
           (chunks.map StreamEvent.chunk ++ [StreamEvent.complete]), none)) ∧
    (∀ evs e,
      RAGPipeline.run_streaming retrieveF gstream top_k query fd =
        (evs, some e) →
      StreamEvent.complete ∉ evs) := by
  constructor
  · intro docs chunks h1 h2
    simp [RAGPipeline.run_streaming, h1, h2]
  · intro evs e h
    unfold RAGPipeline.run_streaming at h
    cases hr : retrieveF query top_k fd with
    | error e' =>
      simp only [hr, Prod.mk.injEq] at h
      obtain ⟨h1, h2⟩ := h
      subst h1
      simp
    | ok docs =>
      simp only [hr] at h
      cases hg : gstream query (format_context docs) with
      | mk chunks err =>
        rw [hg] at h
        cases err with
        | none => simp at h
        | some e' =>
          simp only [Prod.mk.injEq] at h
          obtain ⟨h1, h2⟩ := h
          subst h1
          simp

/-- Witness for C3: a concrete successful run yields retrieved-chunks-complete
exactly once each in order; a concrete failed run yields no complete event. -/
theorem C3_witness :
    RAGPipeline.run_streaming (fun _ _ _ => .ok [])
        (fun _ _ => (["a", "b"], none)) 1 "q" none =
      ([StreamEvent.retrieved 0 [], StreamEvent.chunk "a",
        StreamEvent.chunk "b", StreamEvent.complete], none) ∧
    StreamEvent.complete ∉ ([] : List StreamEvent) := by
  constructor
  · exact (C3_run_streaming_events (fun _ _ _ => .ok [])
      (fun _ _ => (["a", "b"], none)) 1 "q" none).1 [] ["a", "b"] rfl rfl
  · exact (C3_run_streaming_events (fun _ _ _ => .error (.provider "x"))
      (fun _ _ => ([], none)) 1 "q" none).2 [] (.provider "x") rfl

/-- C8: on success `RAGPipeline.run` returns exactly the record of the input
query unchanged, the retrieved sequence, the context equal to
`format_context` of that same sequence, and the generator's response; when
any step fails the error propagates and no partial result is returned; and
every successful result's context is derived from its own
retrieved_documents in the same order. -/
theorem C8_run_assembly
    (retrieveF : String → Int → Option Filter → Except RMError (List RetrievedDocument))
    (generateF : String → String → Except RMError String)
    (top_k : Int) (query : String) (fd : Option Filter) :
    (∀ docs resp,
      retrieveF query top_k fd = .ok docs →
      generateF query (format_context docs) = .ok resp →
      RAGPipeline.run retrieveF generateF top_k query fd =
        .ok { query := query, retrieved_documents := docs,
              context := format_context docs, response := resp }) ∧
    (∀ e, retrieveF query top_k fd = .error e →
      RAGPipeline.run retrieveF generateF top_k query fd = .error e) ∧
    (∀ docs e,
      retrieveF query top_k fd = .ok docs →
      generateF query (format_context docs) = .error e →
      RAGPipeline.run retrieveF generateF top_k query fd = .error e) ∧
    (∀ res, RAGPipeline.run retrieveF generateF top_k query fd = .ok res →
      res.query = query ∧
      res.context = format_context res.retrieved_documents) := by
  refine ⟨?_, ?_, ?_, ?_⟩
  · intro docs resp h1 h2
    simp [RAGPipeline.run, h1, h2, Except.bind, Bind.bind, Functor.map,
      Except.map, pure, Except.pure]
  · intro e h
    simp [RAGPipeline.run, h, Except.bind, Bind.bind]
  · intro docs e h1 h2
    simp [RAGPipeline.run, h1, h2, Except.bind, Bind.bind, Functor.map,
      Except.map]
  · intro res h
    unfold RAGPipeline.run at h
    cases hr : retrieveF query top_k fd with
    | error e =>
      rw [hr] at h
      simp [Except.bind, Bind.bind] at h
    | ok docs =>
      rw [hr] at h
      simp only [Except.bind, Bind.bind] at h
      cases hg : generateF query (format_context docs) with
      | error e =>
        rw [hg] at h
        simp [Functor.map, Except.map] at h
      | ok resp =>
        rw [hg] at h
        simp only [Functor.map, Except.map, pure, Except.pure,
          Except.ok.injEq] at h
        subst h
        exact ⟨rfl, rfl⟩

/-- Witness for C8: a concrete successful run assembles the full record. -/
theorem C8_witness :
    RAGPipeline.run (fun _ _ _ => .ok []) (fun _ _ => .ok "answer") 3 "q8" none =
      .ok { query := "q8", retrieved_documents := [], context := "",
            response := "answer" } :=
  (C8_run_assembly (fun _ _ _ => .ok []) (fun _ _ => .ok "answer")
    3 "q8" none).1 [] "answer" rfl rfl

/-- C4 counterexample: with `top_k = 0` (non-positive), the pipeline does not
fail with a ValidationError — the run succeeds, and the vector index receives
`n_results = 0` unchanged (the query stub echoes the received `n_results`
into the returned id). -/
theorem C4_counterexample :
    (RAGPipeline.run
        (Retriever.retrieve (fun _ => .ok [0])
          (fun _ k _ => .ok { ids := ["n=" ++ toString k], documents := ["t"],
                              metadatas := [[]], distances := [0] }))
        (fun _ _ => .ok "resp") 0 "q" none).isOk = true ∧
    (RAGPipeline.run
        (Retriever.retrieve (fun _ => .ok [0])
          (fun _ k _ => .ok { ids := ["n=" ++ toString k], documents := ["t"],
                              metadatas := [[]], distances := [0] }))
        (fun _ _ => .ok "resp") 0 "q" none).toOption.map
      (fun r => r.retrieved_documents.map RetrievedDocument.id) =
      some ["n=0"] := by
  decide

/-- C4 amended: a non-positive `top_k` is not rejected: neither the pipeline
nor the retriever validates it, and it is forwarded unchanged as `n_results`
to the vector index query; when the collaborators succeed for that same
`top_k` the run succeeds. -/
theorem C4_topk_not_validated
    (embed : String → Except RMError (List ℚ))
    (vsquery : List ℚ → Int → Option Filter → Except RMError SearchResult)
    (generateF : String → String → Except RMError String)
    (top_k : Int) (query : String) (fd : Option Filter)
    (v : List ℚ) (r : SearchResult) (resp : String)
    (htk : top_k ≤ 0)
    (he : embed query = .ok v)
    (hq : vsquery v top_k fd = .ok r)
    (hg : generateF query (format_context (retrieveFromResults r)) = .ok resp) :
    RAGPipeline.run (Retriever.retrieve embed vsquery) generateF top_k query fd =
      .ok { query := query, retrieved_documents := retrieveFromResults r,
            context := format_context (retrieveFromResults r),
            response := resp } := by
  simp [RAGPipeline.run, Retriever.retrieve, he, hq, hg, Except.bind,
    Bind.bind, Functor.map, Except.map, pure, Except.pure]

/-- Witness for C4's amended statement at `top_k = -1`. -/
theorem C4_witness :
    RAGPipeline.run
        (Retriever.retrieve (fun _ => .ok [0])
          (fun _ _ _ => .ok { ids := [], documents := [], metadatas := [],
                              distances := [] }))
        (fun _ _ => .ok "resp") (-1) "q" none =
      .ok { query := "q", retrieved_documents := [], context := "",
            response := "resp" } :=
  C4_topk_not_validated (fun _ => .ok [0])
    (fun _ _ _ => .ok { ids := [], documents := [], metadatas := [],
                        distances := [] })
    (fun _ _ => .ok "resp") (-1) "q" none [0]
    { ids := [], documents := [], metadatas := [], distances := [] }
    "resp" (by decide) rfl rfl rfl

/-- After removing every collection named `name`, a lookup of `name` fails. -/
theorem lookup_filter_ne (l : List (String × List StoreRecord)) (name : String) :
    (l.filter fun p => p.1 ≠ name).lookup name = none := by
  induction l with
  | nil => rfl
  | cons p rest ih =>
    obtain ⟨k, v⟩ := p
    by_cases hp : k = name
    · simpa [List.filter_cons, hp] using ih
    · have hne : (name == k) = false :=
        beq_eq_false_iff_ne.mpr (fun h => hp h.symm)
      simpa [List.filter_cons, hp, List.lookup, hne] using ih

/-- C10: after every `delete_collection` the store immediately re-creates a
collection under the same name: the client again holds a collection
registered under `name`, the store's collection handle is live (the fresh
empty collection), and a count query right after the reset returns 0 rather
than failing. -/
theorem C10_delete_recreates (c : ChromaClient) (name : String) :
    (delete_collection c name).1.getCollection name = some [] ∧
    (delete_collection c name).2 = [] ∧
    get_collection_count (delete_collection c name).2 = 0 := by
  have hnone : (c.deleteCollection name).getCollection name = none :=
    lookup_filter_ne c.collections name
  unfold delete_collection getOrCreateCollection
  rw [hnone]
  refine ⟨?_, rfl, rfl⟩
  simp only [ChromaClient.createCollection, ChromaClient.getCollection,
    List.lookup, beq_self_eq_true]

/-- Unfolding lemma: chunking the empty list. -/
theorem chunksOf_nil (bs : Nat) : chunksOf bs ([] : List α) = [] := by
  rw [chunksOf]

/-- Unfolding lemma: chunking a non-empty list with positive chunk size. -/
theorem chunksOf_cons (bs : Nat) (hbs : ¬ bs = 0) (x : α) (xs : List α) :
    chunksOf bs (x :: xs) =
      (x :: xs).take bs :: chunksOf bs ((x :: xs).drop bs) := by
  rw [chunksOf]
  exact dif_neg hbs

/-- The chunks concatenate back to the input: `chunksOf` partitions. -/
theorem chunksOf_flatten (bs : Nat) (hbs : 0 < bs) (l : List α) :
    (chunksOf bs l).flatten = l := by
  induction l using chunksOf.induct bs with
  | case1 => rw [chunksOf_nil]; rfl
  | case2 x xs h => omega
  | case3 x xs h ih =>
    rw [chunksOf_cons bs h, List.flatten_cons, ih]
    exact List.take_append_drop bs (x :: xs)

/-- The number of chunks is the ceiling of `length / bs`. -/
theorem chunksOf_count (bs : Nat) (hbs : 0 < bs) (l : List α) :
    (chunksOf bs l).length = (l.length + bs - 1) / bs := by
  induction l using chunksOf.induct bs with
  | case1 =>
    rw [chunksOf_nil]
    simp only [List.length_nil]
    rw [Nat.div_eq_of_lt (by omega)]
  | case2 x xs h => omega
  | case3 x xs h ih =>
    rw [chunksOf_cons bs h]
    simp only [List.length_cons, ih, List.length_drop]
    have hR : xs.length + 1 + bs - 1 = xs.length + bs := by omega
    rw [hR, Nat.add_div_right _ hbs]
    rcases Nat.lt_or_ge xs.length bs with hlt | hge
    · rw [show xs.length + 1 - bs + bs - 1 = bs - 1 from by omega]
      rw [Nat.div_eq_of_lt (by omega), Nat.div_eq_of_lt hlt]
    · rw [show xs.length + 1 - bs + bs - 1 = xs.length from by omega]

/-- Every chunk has at most `bs` elements. -/
theorem chunksOf_size_le (bs : Nat) (hbs : 0 < bs) (l : List α) :
    ∀ c ∈ chunksOf bs l, c.length ≤ bs := by
  induction l using chunksOf.induct bs with
  | case1 => rw [chunksOf_nil]; intro c hc; simp at hc
  | case2 x xs h => omega
  | case3 x xs h ih =>
    rw [chunksOf_cons bs h]
    intro c hc
    rcases List.mem_cons.mp hc with hhead | htail
    · subst hhead
      simp only [List.length_take]
      omega
    · exact ih c htail

/-- Every chunk except possibly the last has exactly `bs` elements. -/
theorem chunksOf_size_eq (bs : Nat) (hbs : 0 < bs) (l : List α) :
    ∀ i (hi : i + 1 < (chunksOf bs l).length),
      (chunksOf bs l)[i].length = bs := by
  induction l using chunksOf.induct bs with
  | case1 => intro i hi; rw [chunksOf_nil] at hi; simp at hi
  | case2 x xs h => omega
  | case3 x xs h ih =>
    intro i hi
    simp only [chunksOf_cons bs h] at hi ⊢
    cases i with
    | zero =>
      simp only [List.length_cons] at hi
      have hne : chunksOf bs ((x :: xs).drop bs) ≠ [] := by
        intro hemp
        rw [hemp] at hi
        simp at hi
      have hlen : bs < (x :: xs).length := by
        by_contra hc
        push_neg at hc
        rw [List.drop_eq_nil_iff.mpr hc, chunksOf_nil] at hne
        exact hne rfl
      simp only [List.getElem_cons_zero, List.length_take, List.length_cons]
      simp only [List.length_cons] at hlen
      omega
    | succ i2 =>
      simp only [List.length_cons, Nat.add_lt_add_iff_right] at hi
      rw [List.getElem_cons_succ]
      exact ih i2 hi

/-- On an all-success embedder that returns one vector per input, the batch
loop issues one call per chunk with sleeps interspersed (between chunks, not
after the last), and returns the concatenated per-chunk results: one
embedding per input in input order. -/
theorem embLoop_ok (embed : List String → Except RMError (List (List ℚ)))
    (f : String → List ℚ) (bs : Nat) (hbs : 0 < bs)
    (hok : ∀ c, embed c = .ok (c.map f)) (l : List String) :
    embLoop embed bs l =
      (List.intersperse BatchEvent.sleep
        ((chunksOf bs l).map (fun c => BatchEvent.call c.length)),
       .ok (l.map f)) := by
  induction l using embLoop.induct embed bs with
  | case1 => rw [embLoop, chunksOf_nil]; rfl
  | case2 t ts h => omega
  | case3 t ts h batch e herr =>
    rw [hok] at herr
    cases herr
  | case4 t ts h batch es hes hdrop =>
    have hb : batch = (t :: ts).take bs := rfl
    rw [hb] at hes
    rw [embLoop, dif_neg h]
    simp only [hes, hdrop]
    rw [hok] at hes
    have hes2 : ((t :: ts).take bs).map f = es := Except.ok.inj hes
    have htake : (t :: ts).take bs = t :: ts :=
      List.take_of_length_le (List.drop_eq_nil_iff.mp hdrop)
    rw [chunksOf_cons bs h, hdrop, chunksOf_nil]
    rw [← hes2, htake]
    rfl
  | case5 t ts h batch es hes r rs hdrop ih =>
    have hb : batch = (t :: ts).take bs := rfl
    rw [hb] at hes
    rw [embLoop, dif_neg h]
    simp only [hes]
    split
    · next heq => exact absurd (hdrop.symm.trans heq) (List.cons_ne_nil r rs)
    · next r2 rs2 heq =>
      rw [hdrop] at heq
      injection heq with h1 h2
      subst h1
      subst h2
      rw [ih]
      dsimp only
      rw [hok] at hes
      have hes2 : ((t :: ts).take bs).map f = es := Except.ok.inj hes
      have hcc : chunksOf bs (r :: rs) =
          (r :: rs).take bs :: chunksOf bs ((r :: rs).drop bs) :=
        chunksOf_cons bs h r rs
      rw [Prod.mk.injEq]
      constructor
      · rw [chunksOf_cons bs h t ts, hdrop, hcc]
        simp [List.map_cons, List.intersperse_cons_cons]
      · rw [← hes2,
          show (r :: rs).map f = ((t :: ts).drop bs).map f from by rw [hdrop],
          ← List.map_append, List.take_append_drop]

/-- If the embedder succeeds on every chunk before position `j` and fails on
the chunk at position `j`, the whole batch loop fails with that error: no
partial embedding list is returned. -/
theorem embLoop_err (embed : List String → Except RMError (List (List ℚ)))
    (bs : Nat) (hbs : 0 < bs) (l : List String) :
    ∀ j (hj : j < (chunksOf bs l).length) (e : RMError),
      (∀ i (hi : i < j), ∃ v, embed ((chunksOf bs l)[i]) = .ok v) →
      embed ((chunksOf bs l)[j]) = .error e →
      (embLoop embed bs l).2 = .error e := by
  induction l using embLoop.induct embed bs with
  | case1 =>
    intro j hj
    rw [chunksOf_nil] at hj
    simp at hj
  | case2 t ts h => omega
  | case3 t ts h batch e0 herr0 =>
    intro j hj e hpre herr
    have hb : batch = (t :: ts).take bs := rfl
    rw [hb] at herr0
    cases j with
    | zero =>
      simp only [chunksOf_cons bs h, List.getElem_cons_zero] at herr
      rw [embLoop, dif_neg h]
      simp only [herr0]
      rw [herr0] at herr
      exact (Except.error.inj herr) ▸ rfl
    | succ j2 =>
      obtain ⟨v, hv⟩ := hpre 0 (Nat.succ_pos j2)
      simp only [chunksOf_cons bs h, List.getElem_cons_zero] at hv
      rw [herr0] at hv
      cases hv
  | case4 t ts h batch es hes hdrop =>
    intro j hj e hpre herr
    have hb : batch = (t :: ts).take bs := rfl
    rw [hb] at hes
    simp only [chunksOf_cons bs h, hdrop, chunksOf_nil] at hj herr
    cases j with
    | zero =>
      simp only [List.getElem_cons_zero] at herr
      rw [hes] at herr
      cases herr
    | succ j2 => simp at hj
  | case5 t ts h batch es hes r rs hdrop ih =>
    intro j hj e hpre herr
    have hb : batch = (t :: ts).take bs := rfl
    rw [hb] at hes
    have hstep : chunksOf bs (t :: ts) =
        (t :: ts).take bs :: chunksOf bs (r :: rs) := by
      rw [chunksOf_cons bs h, hdrop]
    simp only [hstep] at hj herr
    cases j with
    | zero =>
      simp only [List.getElem_cons_zero] at herr
      rw [hes] at herr
      cases herr
    | succ j2 =>
      simp only [List.length_cons, Nat.add_lt_add_iff_right] at hj
      simp only [List.getElem_cons_succ] at herr
      have hrec := ih j2 hj e
        (by
          intro i hi
          obtain ⟨w, hw⟩ := hpre (i + 1) (by omega)
          simp only [hstep, List.getElem_cons_succ] at hw
          exact ⟨w, hw⟩)
        herr
      rw [embLoop, dif_neg h]
      simp only [hes]
      split
      · next heq => exact absurd (hdrop.symm.trans heq) (List.cons_ne_nil r rs)
      · next r2 rs2 heq =>
        rw [hdrop] at heq
        injection heq with h1 h2
        subst h1
        subst h2
        dsimp only
        rw [hrec]

/-- C6: `generate_embeddings_batch` partitions its input into consecutive
chunks of at most `batch_size` (ceil(len/batch_size) of them, all of size
`batch_size` except a possibly-smaller last one), issues exactly one upstream
call per chunk with the rate-limit sleep between chunks but not after the
last, and on success returns one embedding per input in the original input
order; if any chunk's upstream call fails, the whole call fails with that
upstream error and no partial embedding list is returned. -/
theorem C6_embed_batching
    (embed : List String → Except RMError (List (List ℚ)))
    (f : String → List ℚ) (texts : List String) (bs : Nat) (hbs : 0 < bs) :
    ((chunksOf bs texts).flatten = texts ∧
     (chunksOf bs texts).length = (texts.length + bs - 1) / bs ∧
     (∀ c ∈ chunksOf bs texts, c.length ≤ bs) ∧
     (∀ i (hi : i + 1 < (chunksOf bs texts).length),
       (chunksOf bs texts)[i].length = bs)) ∧
    ((∀ c, embed c = .ok (c.map f)) →
      generate_embeddings_batch embed texts bs =
        (List.intersperse BatchEvent.sleep
          ((chunksOf bs texts).map (fun c => BatchEvent.call c.length)),
         .ok (texts.map f))) ∧
    (∀ j (hj : j < (chunksOf bs texts).length) (e : RMError),
      (∀ i (hi : i < j), ∃ v, embed ((chunksOf bs texts)[i]) = .ok v) →
      embed ((chunksOf bs texts)[j]) = .error e →
      (generate_embeddings_batch embed texts bs).2 = .error e) := by
  have hbs0 : ¬ bs = 0 := Nat.pos_iff_ne_zero.mp hbs
  refine ⟨⟨chunksOf_flatten bs hbs texts, chunksOf_count bs hbs texts,
    chunksOf_size_le bs hbs texts, chunksOf_size_eq bs hbs texts⟩, ?_, ?_⟩
  · intro hok
    unfold generate_embeddings_batch
    rw [if_neg hbs0]
    exact embLoop_ok embed f bs hbs hok texts
  · intro j hj e hpre herr
    unfold generate_embeddings_batch
    rw [if_neg hbs0]
    exact embLoop_err embed bs hbs texts j hj e hpre herr

/-- Witness for C6 at the reference scenario: `batchSize = 2` over 5 inputs
issues 3 upstream calls of sizes [2, 2, 1] with sleeps between them, and
returns 5 vectors in order; when the second call fails, the whole batch call
fails with that error. -/
theorem C6_witness :
    generate_embeddings_batch (fun c => .ok (c.map (fun _ => [(1 : ℚ)])))
        ["a", "b", "c", "d", "e"] 2 =
      ([BatchEvent.call 2, BatchEvent.sleep, BatchEvent.call 2,
        BatchEvent.sleep, BatchEvent.call 1],
       .ok [[1], [1], [1], [1], [1]]) ∧
    (generate_embeddings_batch
        (fun c => if c = ["c", "d"] then .error (.provider "boom")
                  else .ok (c.map (fun _ => [(1 : ℚ)])))
        ["a", "b", "c", "d", "e"] 2).2 = .error (.provider "boom") := by
  have hchunks : chunksOf 2 ["a", "b", "c", "d", "e"] =
      [["a", "b"], ["c", "d"], ["e"]] := by
    rw [chunksOf_cons 2 (by decide),
      show List.drop 2 ["a", "b", "c", "d", "e"] = ["c", "d", "e"] from rfl,
      chunksOf_cons 2 (by decide),
      show List.drop 2 ["c", "d", "e"] = ["e"] from rfl,
      chunksOf_cons 2 (by decide),
      show List.drop 2 ["e"] = ([] : List String) from rfl,
      chunksOf_nil]
    rfl
  constructor
  · have h := (C6_embed_batching (fun c => .ok (c.map (fun _ => [(1 : ℚ)])))
      (fun _ => [(1 : ℚ)]) ["a", "b", "c", "d", "e"] 2 (by decide)).2.1
      (fun _ => rfl)
    rw [h, hchunks]
    rfl
  · have h := (C6_embed_batching
      (fun c => if c = ["c", "d"] then .error (.provider "boom")
                else .ok (c.map (fun _ => [(1 : ℚ)])))
      (fun _ => [(1 : ℚ)]) ["a", "b", "c", "d", "e"] 2 (by decide)).2.2
      1 (by rw [hchunks]; decide) (.provider "boom")
      (by
        intro i hi
        have hi0 : i = 0 := by omega
        subst hi0
        refine ⟨[[(1 : ℚ)], [(1 : ℚ)]], ?_⟩
        simp only [hchunks]
        rfl)
      (by
        simp only [hchunks]
        rfl)
    exact h

/-- The zipped record sequence never outruns the text sequence. -/
theorem zipRecords_length_le (ts : List String) (es : List (List ℚ))
    (ms : List Metadata) (is2 : List String) :
    (zipRecords ts es ms is2).length ≤ ts.length := by
  induction ts generalizing es ms is2 with
  | nil => simp [zipRecords]
  | cons t ts ih =>
    cases es with
    | nil => simp [zipRecords]
    | cons e es =>
      cases ms with
      | nil => simp [zipRecords]
      | cons m ms =>
        cases is2 with
        | nil => simp [zipRecords]
        | cons i is2 =>
          simp only [zipRecords, List.length_cons]
          exact Nat.succ_le_succ (ih es ms is2)

/-- With all four sequences of equal length, the zipped record sequence has
that length. -/
theorem zipRecords_length_eq (ts : List String) (es : List (List ℚ))
    (ms : List Metadata) (is2 : List String) :
    es.length = ts.length → ms.length = ts.length → is2.length = ts.length →
    (zipRecords ts es ms is2).length = ts.length := by
  induction ts generalizing es ms is2 with
  | nil => intro _ _ _; simp [zipRecords]
  | cons t ts ih =>
    intro he hm hi
    cases es with
    | nil => simp at he
    | cons e es =>
      cases ms with
      | nil => simp at hm
      | cons m ms =>
        cases is2 with
        | nil => simp at hi
        | cons i is2 =>
          simp only [List.length_cons] at he hm hi
          simp only [zipRecords, List.length_cons]
          rw [ih es ms is2 (by omega) (by omega) (by omega)]

/-- Splitting all four sequences at `n` splits the zipped records at `n`. -/
theorem zipRecords_take_drop (n : Nat) (ts : List String) (es : List (List ℚ))
    (ms : List Metadata) (is2 : List String) :
    zipRecords (ts.take n) (es.take n) (ms.take n) (is2.take n) ++
      zipRecords (ts.drop n) (es.drop n) (ms.drop n) (is2.drop n) =
      zipRecords ts es ms is2 := by
  induction n generalizing ts es ms is2 with
  | zero => simp [zipRecords]
  | succ n ih =>
    cases ts <;> cases es <;> cases ms <;> cases is2 <;>
      simp [zipRecords, List.take_succ_cons, List.drop_succ_cons, ih]

/-- Unfolding lemma: batching with an empty text sequence. -/
theorem addBatches_nil (es : List (List ℚ)) (ms : List Metadata)
    (is2 : List String) : addBatches [] es ms is2 = [] := by
  rw [addBatches]

/-- Unfolding lemma: batching a non-empty text sequence slices all four
sequences at 100. -/
theorem addBatches_cons (t : String) (ts : List String) (es : List (List ℚ))
    (ms : List Metadata) (is2 : List String) :
    addBatches (t :: ts) es ms is2 =
      zipRecords ((t :: ts).take 100) (es.take 100) (ms.take 100)
          (is2.take 100) ::
        addBatches ((t :: ts).drop 100) (es.drop 100) (ms.drop 100)
          (is2.drop 100) := by
  rw [addBatches]

/-- The batches concatenate back to the full zipped record sequence. -/
theorem addBatches_flatten (ts : List String) (es : List (List ℚ))
    (ms : List Metadata) (is2 : List String) :
    (addBatches ts es ms is2).flatten = zipRecords ts es ms is2 := by
  induction ts, es, ms, is2 using addBatches.induct with
  | case1 es ms is2 => rw [addBatches_nil]; simp [zipRecords]
  | case2 t ts es ms is2 ih =>
    rw [addBatches_cons, List.flatten_cons, ih]
    exact zipRecords_take_drop 100 (t :: ts) es ms is2

/-- Every write batch holds at most 100 records. -/
theorem addBatches_size_le (ts : List String) (es : List (List ℚ))
    (ms : List Metadata) (is2 : List String) :
    ∀ b ∈ addBatches ts es ms is2, b.length ≤ 100 := by
  induction ts, es, ms, is2 using addBatches.induct with
  | case1 es ms is2 => rw [addBatches_nil]; intro b hb; simp at hb
  | case2 t ts es ms is2 ih =>
    rw [addBatches_cons]
    intro b hb
    rcases List.mem_cons.mp hb with hh | ht
    · subst hh
      refine le_trans (zipRecords_length_le _ _ _ _) ?_
      rw [List.length_take]
      omega
    · exact ih b ht

/-- With equal-length inputs, every write batch except possibly the last
holds exactly 100 records. -/
theorem addBatches_size_eq (ts : List String) (es : List (List ℚ))
    (ms : List Metadata) (is2 : List String) :
    es.length = ts.length → ms.length = ts.length → is2.length = ts.length →
    ∀ i (hi : i + 1 < (addBatches ts es ms is2).length),
      (addBatches ts es ms is2)[i].length = 100 := by
  induction ts, es, ms, is2 using addBatches.induct with
  | case1 es ms is2 =>
    intro _ _ _ i hi
    rw [addBatches_nil] at hi
    simp at hi
  | case2 t ts es ms is2 ih =>
    intro he hm hi2 i hi
    simp only [addBatches_cons] at hi ⊢
    cases i with
    | zero =>
      simp only [List.length_cons] at hi
      have hne : addBatches ((t :: ts).drop 100) (es.drop 100) (ms.drop 100)
          (is2.drop 100) ≠ [] := by
        intro hemp
        rw [hemp] at hi
        simp at hi
      have hlen : 100 < (t :: ts).length := by
        by_contra hc
        push_neg at hc
        rw [List.drop_eq_nil_iff.mpr hc] at hne
        exact hne (addBatches_nil _ _ _)
      simp only [List.getElem_cons_zero]
      rw [zipRecords_length_eq]
      · rw [List.length_take]; omega
      · rw [List.length_take, List.length_take, he]
      · rw [List.length_take, List.length_take, hm]
      · rw [List.length_take, List.length_take, hi2]
    | succ i2 =>
      simp only [List.length_cons, Nat.add_lt_add_iff_right] at hi
      rw [List.getElem_cons_succ]
      exact ih (by simp [List.length_drop, he]) (by simp [List.length_drop, hm])
        (by simp [List.length_drop, hi2]) i2 hi

/-- A run over batches that all succeed commits every batch in order. -/
theorem runBatches_ok (addCall : List StoreRecord → Except RMError Unit)
    (bl : List (List StoreRecord)) (hok : ∀ b ∈ bl, addCall b = .ok ()) :
    runBatches addCall bl = (bl, .ok ()) := by
  induction bl with
  | nil => rfl
  | cons b rest ih =>
    simp only [runBatches, hok b (List.mem_cons_self b rest)]
    rw [ih (fun x hx => hok x (List.mem_cons_of_mem b hx))]

/-- A run whose first failing batch is at position `j` commits exactly the
batches before `j` (no rollback of prior writes) and fails with that batch's
error. -/
theorem runBatches_err (addCall : List StoreRecord → Except RMError Unit)
    (bl : List (List StoreRecord)) :
    ∀ j (hj : j < bl.length) (e : RMError),
      (∀ i (hi : i < j), addCall bl[i] = .ok ()) →
      addCall bl[j] = .error e →
      runBatches addCall bl = (bl.take j, .error e) := by
  induction bl with
  | nil => intro j hj; simp at hj
  | cons b rest ih =>
    intro j hj e hpre herr
    cases j with
    | zero =>
      simp only [List.getElem_cons_zero] at herr
      simp only [runBatches, herr]
      rfl
    | succ j2 =>
      have h0 := hpre 0 (Nat.succ_pos j2)
      simp only [List.getElem_cons_zero] at h0
      simp only [List.getElem_cons_succ] at herr
      simp only [List.length_cons, Nat.add_lt_add_iff_right] at hj
      simp only [runBatches, h0]
      rw [ih j2 hj e (fun i hi => by
        have h1 := hpre (i + 1) (by omega)
        simpa using h1) herr]
      rfl

/-- C7: `add_documents` fails with the ValidationError before any write when
the four sequences do not all have the length of `texts`; with equal lengths
it writes the zipped records in consecutive batches of size 100 (every batch
at most 100, all but the last exactly 100, one underlying `collection.add`
call per batch), and a failure in one batch leaves exactly the previously
written batches committed (no rollback) while the call fails with that
batch's error. -/
theorem C7_add_documents
    (addCall : List StoreRecord → Except RMError Unit)
    (texts : List String) (embeddings : List (List ℚ))
    (metadatas : List Metadata) (ids : List String) :
    (¬ (embeddings.length = texts.length ∧ metadatas.length = texts.length ∧
        ids.length = texts.length) →
      add_documents addCall texts embeddings metadatas ids =
        ([], .error (.validation "All input lists must have the same length"))) ∧
    (embeddings.length = texts.length → metadatas.length = texts.length →
      ids.length = texts.length →
      ((addBatches texts embeddings metadatas ids).flatten =
         zipRecords texts embeddings metadatas ids ∧
       (∀ b ∈ addBatches texts embeddings metadatas ids, b.length ≤ 100) ∧
       (∀ i (hi : i + 1 < (addBatches texts embeddings metadatas ids).length),
         (addBatches texts embeddings metadatas ids)[i].length = 100)) ∧
      ((∀ b ∈ addBatches texts embeddings metadatas ids, addCall b = .ok ()) →
        add_documents addCall texts embeddings metadatas ids =
          (addBatches texts embeddings metadatas ids, .ok ())) ∧
      (∀ j (hj : j < (addBatches texts embeddings metadatas ids).length)
         (e : RMError),
        (∀ i (hi : i < j),
          addCall ((addBatches texts embeddings metadatas ids)[i]) = .ok ()) →
        addCall ((addBatches texts embeddings metadatas ids)[j]) = .error e →
        add_documents addCall texts embeddings metadatas ids =
          ((addBatches texts embeddings metadatas ids).take j, .error e))) := by
  constructor
  · intro hne
    unfold add_documents
    rw [if_neg hne]
  · intro he hm hi
    refine ⟨⟨addBatches_flatten texts embeddings metadatas ids,
      addBatches_size_le texts embeddings metadatas ids,
      addBatches_size_eq texts embeddings metadatas ids he hm hi⟩, ?_, ?_⟩
    · intro hok
      unfold add_documents
      rw [if_pos ⟨he, hm, hi⟩]
      exact runBatches_ok addCall _ hok
    · intro j hj e hpre herr
      unfold add_documents
      rw [if_pos ⟨he, hm, hi⟩]
      exact runBatches_err addCall _ j hj e hpre herr

/-- Witness for C7: two records go through in one batch of size 2; a
length-mismatched call fails with the ValidationError and commits nothing. -/
theorem C7_witness :
    add_documents (fun _ => .ok ()) ["t1", "t2"] [[(1 : ℚ)], [(2 : ℚ)]]
        [[], []] ["i1", "i2"] =
      ([[{ id := "i1", text := "t1", metadata := [], embedding := [(1 : ℚ)] },
         { id := "i2", text := "t2", metadata := [], embedding := [(2 : ℚ)] }]],
       .ok ()) ∧
    add_documents (fun _ => .ok ()) ["t1"] [] [[]] ["i1"] =
      ([], .error (.validation "All input lists must have the same length")) := by
  have hbatches : addBatches ["t1", "t2"] [[(1 : ℚ)], [(2 : ℚ)]] [[], []]
      ["i1", "i2"] =
      [[{ id := "i1", text := "t1", metadata := [], embedding := [(1 : ℚ)] },
        { id := "i2", text := "t2", metadata := [], embedding := [(2 : ℚ)] }]] := by
    rw [addBatches_cons,
      show List.drop 100 ["t1", "t2"] = ([] : List String) from rfl,
      addBatches_nil]
    rfl
  constructor
  · have h := ((C7_add_documents (fun _ => .ok ()) ["t1", "t2"]
      [[(1 : ℚ)], [(2 : ℚ)]] [[], []] ["i1", "i2"]).2 rfl rfl rfl).2.1
      (fun _ _ => rfl)
    rw [h, hbatches]
  · exact (C7_add_documents (fun _ => .ok ()) ["t1"] [] [[]] ["i1"]).1
      (by decide)

end ReasonMed